import Mathlib

/-!
Verification development for the FontByte repository, script
src/github-filesize.py: a shallow embedding of the asynchronous request
governor (concurrency semaphore, rolling-window rate limiter, retry loop)
and of the font-table data pipeline (metadata model, filename derivation,
file-size lookup, row filtering, table sorting), with theorems settling
the behavioural claims about the script.
-/

namespace FontByte

/-! ## Configuration constants (lines 24-25 of the script) -/

/-- MAX_CONCURRENT_REQUESTS = 50 in the script. -/
def MAX_CONCURRENT_REQUESTS : Nat := 50

/-- REQUESTS_PER_MINUTE = 800 in the script. -/
def REQUESTS_PER_MINUTE : Nat := 800

/-! ## Rate limiter (rate_limit_wait, lines 34-46)

Wall-clock instants (Python time.time floats) are modelled as rationals.
The mutable global list request_times is threaded explicitly.
-/

/-- The pruning while-loop of rate_limit_wait:
while request_times and request_times[0] less than now - 60: pop(0). -/
def pruneOld (now : ℚ) : List ℚ → List ℚ
  | [] => []
  | t :: ts => if t < now - 60 then pruneOld now ts else t :: ts

/-- Outcome of one rate_limit_wait call: how long it slept, at what instant
it returned (the admission instant), and the updated request_times list. -/
structure RateResult where
  sleepTime : ℚ
  admitTime : ℚ
  newTimes : List ℚ
  deriving DecidableEq

/-- One call of rate_limit_wait at wall-clock instant now with the current
request_times list: prune entries older than 60 seconds, sleep when the
surviving count is at or above the cap and the oldest entry has time left
in the window, then append now (the pre-sleep instant, as the code does). -/
def rate_limit_wait (cap : Nat) (now : ℚ) (times : List ℚ) : RateResult :=
  let pruned := pruneOld now times
  let sleepTime :=
    if cap ≤ pruned.length then
      let waitTime := pruned.headD 0 - (now - 60)
      if 0 < waitTime then waitTime else 0
    else 0
  { sleepTime := sleepTime
    admitTime := now + sleepTime
    newTimes := pruned ++ [now] }

/-- Admission instants of a sequential run: each call to rate_limit_wait
starts at the given wall-clock instant and returns at its admitTime. -/
def runFrom (cap : Nat) (records : List ℚ) : List ℚ → List ℚ
  | [] => []
  | e :: rest =>
    let r := rate_limit_wait cap e records
    r.admitTime :: runFrom cap r.newTimes rest

/-- Admission instants of a run started with an empty request_times list. -/
def admissionTimes (cap : Nat) (entries : List ℚ) : List ℚ :=
  runFrom cap [] entries

/-- A wall-clock trace is a valid sequential run when each call starts no
earlier than the instant the previous call returned (time is monotone and
calls do not overlap). -/
def validFrom (cap : Nat) (records : List ℚ) (prev : ℚ) : List ℚ → Bool
  | [] => true
  | e :: rest =>
    let r := rate_limit_wait cap e records
    decide (prev ≤ e) && validFrom cap r.newTimes r.admitTime rest

/-- Validity of a whole run from the empty request_times list. -/
def validRun (cap : Nat) : List ℚ → Bool
  | [] => true
  | e :: rest =>
    let r := rate_limit_wait cap e []
    validFrom cap r.newTimes r.admitTime rest

/-- Number of admission instants inside the trailing 60-second window
ending at t (strictly newer than t - 60, at or before t). -/
def countWindow (l : List ℚ) (t : ℚ) : Nat :=
  l.countP fun a => decide (t - 60 < a) && decide (a ≤ t)

/-- A run never waits when every admission decision finds strictly fewer
than cap surviving records after pruning. -/
def noWaitFrom (cap : Nat) (records : List ℚ) : List ℚ → Bool
  | [] => true
  | e :: rest =>
    let pruned := pruneOld e records
    decide (pruned.length < cap) && noWaitFrom cap (pruned ++ [e]) rest

/-- The records left after a run, threading newTimes exactly as runFrom does. -/
def finalTimes (cap : Nat) (records : List ℚ) : List ℚ → List ℚ
  | [] => records
  | e :: rest => finalTimes cap (rate_limit_wait cap e records).newTimes rest

/-- The instant the last call of a run returned (prev when the run is empty). -/
def finalAdmit (cap : Nat) (records : List ℚ) (prev : ℚ) : List ℚ → ℚ
  | [] => prev
  | e :: rest =>
    finalAdmit cap (rate_limit_wait cap e records).newTimes
      (rate_limit_wait cap e records).admitTime rest

example : rate_limit_wait 2 0 [] = ⟨0, 0, [0]⟩ := by
  norm_num [rate_limit_wait, pruneOld]
example : rate_limit_wait 2 0 [0, 0] = ⟨60, 60, [0, 0, 0]⟩ := by
  norm_num [rate_limit_wait, pruneOld]
example : admissionTimes 1 [0, 0, 60] = [0, 60, 60] := by
  norm_num [admissionTimes, runFrom, rate_limit_wait, pruneOld]
example : validRun 1 [0, 0, 60] = true := by
  norm_num [validRun, validFrom, rate_limit_wait, pruneOld]
example : countWindow [0, 60, 60] 60 = 2 := by
  norm_num [countWindow, List.countP, List.countP.go]

/-! ## Basic lemmas about the rate limiter -/

/-- The pruning loop is exactly dropWhile on the age test. -/
lemma pruneOld_eq_dropWhile (now : ℚ) :
    ∀ l : List ℚ, pruneOld now l = l.dropWhile fun x => decide (x < now - 60)
  | [] => rfl
  | t :: ts => by
    by_cases h : t < now - 60 <;>
      simp [pruneOld, List.dropWhile, h, pruneOld_eq_dropWhile now ts]

/-- The head surviving the pruning loop is at most 60 seconds old. -/
lemma pruneOld_head_ge {now x : ℚ} {l r : List ℚ} (h : pruneOld now l = x :: r) :
    now - 60 ≤ x := by
  induction l with
  | nil => simp [pruneOld] at h
  | cons t ts ih =>
    rw [pruneOld] at h
    split at h
    · exact ih h
    · next hlt => cases h; exact le_of_not_lt hlt

lemma pruneOld_cons_of_not_lt {now x : ℚ} {l : List ℚ} (h : ¬ x < now - 60) :
    pruneOld now (x :: l) = x :: l := by
  simp [pruneOld, h]

lemma countWindow_nil (t : ℚ) : countWindow [] t = 0 := rfl

lemma countWindow_append (a b : List ℚ) (t : ℚ) :
    countWindow (a ++ b) t = countWindow a t + countWindow b t :=
  List.countP_append _ _ _

lemma countWindow_le_length (l : List ℚ) (t : ℚ) : countWindow l t ≤ l.length :=
  List.countP_le_length _

/-- When no admission decision of the run reaches the cap, no call sleeps,
so every call is admitted at the instant it entered. -/
lemma runFrom_eq_of_noWait (cap : Nat) :
    ∀ (E records : List ℚ), noWaitFrom cap records E = true →
      runFrom cap records E = E := by
  intro E
  induction E with
  | nil => intro records _; rfl
  | cons e rest ih =>
    intro records h
    rw [noWaitFrom, Bool.and_eq_true, decide_eq_true_iff] at h
    obtain ⟨hlt, hrest⟩ := h
    rw [runFrom]
    have hcond : ¬ cap ≤ (pruneOld e records).length := Nat.not_le.mpr hlt
    simp only [rate_limit_wait, if_neg hcond]
    rw [ih _ hrest]
    simp

/-- Core window bound: starting from any record list whose every trailing
window is already below the cap, a run that never reaches the cap at an
admission decision keeps every trailing window at or below the cap. -/
lemma countWindow_runFrom_le (cap : Nat) :
    ∀ (E records : List ℚ),
      (records ++ E).Pairwise (· ≤ ·) →
      (∀ u, countWindow records u ≤ cap) →
      noWaitFrom cap records E = true →
      ∀ t, countWindow (records ++ E) t ≤ cap := by
  intro E
  induction E with
  | nil => intro records _ h2 _ t; simpa using h2 t
  | cons e rest ih =>
    intro records h1 h2 h3 t
    rw [noWaitFrom, Bool.and_eq_true, decide_eq_true_iff] at h3
    obtain ⟨hlt, hrest⟩ := h3
    have hsplit : records
        = (records.takeWhile fun x => decide (x < e - 60)) ++ pruneOld e records := by
      rw [pruneOld_eq_dropWhile]
      exact (List.takeWhile_append_dropWhile ..).symm
    set D := records.takeWhile fun x => decide (x < e - 60) with hD
    set P := pruneOld e records with hP
    have hDold : ∀ x ∈ D, x < e - 60 := by
      intro x hx
      simpa using List.mem_takeWhile_imp hx
    have hPsub : (P ++ e :: rest).Pairwise (· ≤ ·) := by
      refine List.Pairwise.sublist ?_ h1
      rw [hsplit, List.append_assoc]
      exact List.sublist_append_right D (P ++ e :: rest)
    have hPairNew : ((P ++ [e]) ++ rest).Pairwise (· ≤ ·) := by
      simpa [List.append_assoc] using hPsub
    have hBoundNew : ∀ u, countWindow (P ++ [e]) u ≤ cap := by
      intro u
      calc countWindow (P ++ [e]) u ≤ (P ++ [e]).length := countWindow_le_length _ _
        _ = P.length + 1 := by simp
        _ ≤ cap := hlt
    have hih := ih (P ++ [e]) hPairNew hBoundNew hrest
    have hihb : ∀ u, countWindow (P ++ e :: rest) u ≤ cap := by
      intro u
      simpa [List.append_assoc] using hih u
    by_cases hy : ∃ y ∈ e :: rest, t - 60 < y ∧ y ≤ t
    · obtain ⟨y, hyMem, hy1, hy2⟩ := hy
      have hey : e ≤ y := by
        rcases List.mem_cons.mp hyMem with h | h
        · exact h.ge
        · exact (List.pairwise_cons.mp (hPsub.sublist
            (List.sublist_append_right P (e :: rest)))).1 y h
      have het : e ≤ t := hey.trans hy2
      have hDzero : countWindow D t = 0 := by
        rw [countWindow, List.countP_eq_zero]
        intro x hx
        have := hDold x hx
        simp only [Bool.and_eq_true, decide_eq_true_iff]
        rintro ⟨hcontra, -⟩
        linarith
      calc countWindow (records ++ e :: rest) t
          = countWindow D t + countWindow (P ++ e :: rest) t := by
            rw [hsplit, List.append_assoc, countWindow_append]
        _ = countWindow (P ++ e :: rest) t := by rw [hDzero]; ring
        _ ≤ cap := hihb t
    · push_neg at hy
      have hTail : countWindow (e :: rest) t = 0 := by
        rw [countWindow, List.countP_eq_zero]
        intro x hx
        simp only [Bool.and_eq_true, decide_eq_true_iff]
        rintro ⟨ha, hb⟩
        exact absurd hb (not_le.mpr (hy x hx ha))
      calc countWindow (records ++ e :: rest) t
          = countWindow records t + countWindow (e :: rest) t := countWindow_append ..
        _ = countWindow records t := by rw [hTail]; ring
        _ ≤ cap := h2 t

/-! ## Run-splitting lemmas and closed-form runs used for the C1 counterexample -/

lemma runFrom_append (cap : Nat) :
    ∀ (E1 E2 records : List ℚ),
      runFrom cap records (E1 ++ E2)
        = runFrom cap records E1 ++ runFrom cap (finalTimes cap records E1) E2 := by
  intro E1
  induction E1 with
  | nil => intro E2 records; rfl
  | cons e rest ih =>
    intro E2 records
    rw [List.cons_append, runFrom, runFrom, finalTimes, ih, List.cons_append]

lemma validFrom_append (cap : Nat) :
    ∀ (E1 E2 records : List ℚ) (prev : ℚ),
      validFrom cap records prev (E1 ++ E2)
        = (validFrom cap records prev E1
            && validFrom cap (finalTimes cap records E1)
                 (finalAdmit cap records prev E1) E2) := by
  intro E1
  induction E1 with
  | nil => intro E2 records prev; rfl
  | cons e rest ih =>
    intro E2 records prev
    rw [List.cons_append, validFrom, validFrom, finalTimes, finalAdmit, ih,
      Bool.and_assoc]

lemma countP_replicate (p : ℚ → Bool) (a : ℚ) :
    ∀ n, List.countP p (List.replicate n a) = if p a then n else 0 := by
  intro n
  induction n with
  | zero => simp
  | succ n ih =>
    rw [List.replicate_succ, List.countP_cons, ih]
    by_cases h : p a <;> simp [h]

/-- In a burst of calls all at instant 0 that stays under the cap, every call
is admitted at 0 immediately and the records stay a block of zeros. -/
lemma phase_zeros (cap : Nat) :
    ∀ k j, j + k ≤ cap →
      runFrom cap (List.replicate j (0 : ℚ)) (List.replicate k 0)
          = List.replicate k 0
      ∧ finalTimes cap (List.replicate j (0 : ℚ)) (List.replicate k 0)
          = List.replicate (j + k) 0
      ∧ validFrom cap (List.replicate j (0 : ℚ)) 0 (List.replicate k 0) = true
      ∧ finalAdmit cap (List.replicate j (0 : ℚ)) 0 (List.replicate k 0) = 0 := by
  intro k
  induction k with
  | zero =>
    intro j _
    exact ⟨rfl, rfl, rfl, rfl⟩
  | succ k ih =>
    intro j hjk
    have hrep : List.replicate (k + 1) (0 : ℚ) = 0 :: List.replicate k 0 := rfl
    have hprune : pruneOld 0 (List.replicate j (0 : ℚ)) = List.replicate j 0 := by
      cases j with
      | zero => rfl
      | succ j =>
        rw [List.replicate_succ]
        exact pruneOld_cons_of_not_lt (by norm_num)
    have hlen : ¬ cap ≤ (List.replicate j (0 : ℚ)).length := by
      rw [List.length_replicate]
      omega
    have hstep : rate_limit_wait cap 0 (List.replicate j (0 : ℚ))
        = ⟨0, 0, List.replicate (j + 1) 0⟩ := by
      simp only [rate_limit_wait, hprune, if_neg hlen]
      rw [List.replicate_succ']
      norm_num
    obtain ⟨ih1, ih2, ih3, ih4⟩ := ih (j + 1) (by omega)
    refine ⟨?_, ?_, ?_, ?_⟩
    · rw [hrep, runFrom, hstep, ih1, ← hrep]
    · rw [hrep, finalTimes, hstep, ih2]
      congr 1
      omega
    · rw [hrep, validFrom, hstep]
      simpa using ih3
    · rw [hrep, finalAdmit, hstep, ih4]

/-- Once the records hold cap + 1 stale zero timestamps, every further call at
instant 60 is admitted immediately: the stale zeros are exactly 60 seconds old,
so nothing is pruned and the computed wait is zero. -/
lemma phase_sixties :
    ∀ k j,
      runFrom REQUESTS_PER_MINUTE
          (List.replicate 801 (0 : ℚ) ++ List.replicate j 60) (List.replicate k 60)
          = List.replicate k 60
      ∧ finalTimes REQUESTS_PER_MINUTE
          (List.replicate 801 (0 : ℚ) ++ List.replicate j 60) (List.replicate k 60)
          = List.replicate 801 (0 : ℚ) ++ List.replicate (j + k) 60
      ∧ validFrom REQUESTS_PER_MINUTE
          (List.replicate 801 (0 : ℚ) ++ List.replicate j 60) 60
          (List.replicate k 60) = true
      ∧ finalAdmit REQUESTS_PER_MINUTE
          (List.replicate 801 (0 : ℚ) ++ List.replicate j 60) 60
          (List.replicate k 60) = 60 := by
  intro k
  induction k with
  | zero =>
    intro j
    exact ⟨rfl, rfl, rfl, rfl⟩
  | succ k ih =>
    intro j
    have hrep : List.replicate (k + 1) (60 : ℚ) = 60 :: List.replicate k 60 := rfl
    have hcons : List.replicate 801 (0 : ℚ) ++ List.replicate j 60
        = 0 :: (List.replicate 800 (0 : ℚ) ++ List.replicate j 60) := rfl
    have hprune : pruneOld 60 (List.replicate 801 (0 : ℚ) ++ List.replicate j 60)
        = List.replicate 801 (0 : ℚ) ++ List.replicate j 60 := by
      rw [hcons]
      exact pruneOld_cons_of_not_lt (by norm_num)
    have hlen : REQUESTS_PER_MINUTE
        ≤ (List.replicate 801 (0 : ℚ) ++ List.replicate j 60).length := by
      rw [List.length_append, List.length_replicate, List.length_replicate,
        REQUESTS_PER_MINUTE]
      omega
    have hhead : (List.replicate 801 (0 : ℚ) ++ List.replicate j 60).headD 0 = 0 := by
      rw [hcons]
      rfl
    have hnotpos : ¬ (0 : ℚ) < 0 - (60 - 60) := by norm_num
    have happ : (List.replicate 801 (0 : ℚ) ++ List.replicate j 60) ++ [60]
        = List.replicate 801 (0 : ℚ) ++ List.replicate (j + 1) 60 := by
      rw [List.append_assoc, ← List.replicate_succ']
    have hstep : rate_limit_wait REQUESTS_PER_MINUTE 60
        (List.replicate 801 (0 : ℚ) ++ List.replicate j 60)
        = ⟨0, 60, List.replicate 801 (0 : ℚ) ++ List.replicate (j + 1) 60⟩ := by
      simp only [rate_limit_wait, hprune, if_pos hlen, hhead, if_neg hnotpos, happ]
      norm_num
    obtain ⟨ih1, ih2, ih3, ih4⟩ := ih (j + 1)
    refine ⟨?_, ?_, ?_, ?_⟩
    · rw [hrep, runFrom, hstep, ih1, ← hrep]
    · rw [hrep, finalTimes, hstep, ih2]
      have hj : j + 1 + k = j + (k + 1) := by omega
      rw [hj]
    · rw [hrep, validFrom, hstep]
      have h6 : decide ((60 : ℚ) ≤ 60) = true := by norm_num
      rw [h6, Bool.true_and]
      exact ih3
    · rw [hrep, finalAdmit, hstep, ih4]

/-! ## Claim C2: the shape of one rate_limit_wait call -/

/-- C2: On each admission attempt, rate_limit_wait first drops from the front
of the timestamp list every record older than 60 seconds before now; if the
surviving list has length at or above the cap it suspends for exactly
oldest + 60 - now (and zero when under the cap), and it records a new
timestamp at the end of the list. -/
theorem rate_limit_wait_step_spec (cap : Nat) (now : ℚ) (ts : List ℚ)
    (hcap : 0 < cap) :
    (rate_limit_wait cap now ts).newTimes
        = (ts.dropWhile fun x => decide (x < now - 60)) ++ [now]
    ∧ ((pruneOld now ts).length < cap →
        (rate_limit_wait cap now ts).sleepTime = 0
        ∧ (rate_limit_wait cap now ts).admitTime = now)
    ∧ (cap ≤ (pruneOld now ts).length →
        ∃ oldest rest, pruneOld now ts = oldest :: rest
          ∧ (rate_limit_wait cap now ts).sleepTime = oldest + 60 - now
          ∧ (rate_limit_wait cap now ts).admitTime = oldest + 60) := by
  refine ⟨?_, ?_, ?_⟩
  · simp only [rate_limit_wait, pruneOld_eq_dropWhile]
  · intro h
    have hnle : ¬ cap ≤ (pruneOld now ts).length := Nat.not_le.mpr h
    simp only [rate_limit_wait, if_neg hnle]
    norm_num
  · intro h
    have hne : pruneOld now ts ≠ [] := by
      intro hnil
      rw [hnil] at h
      simp at h
      omega
    obtain ⟨x, r, hx⟩ := List.exists_cons_of_ne_nil hne
    have hge : now - 60 ≤ x := pruneOld_head_ge hx
    have h2 : cap ≤ (x :: r).length := by rw [← hx]; exact h
    refine ⟨x, r, hx, ?_, ?_⟩
    · simp only [rate_limit_wait, hx, if_pos h2, List.headD_cons]
      split
      · linarith
      · next hn =>
        have hle := not_lt.mp hn
        linarith
    · simp only [rate_limit_wait, hx, if_pos h2, List.headD_cons]
      split
      · linarith
      · next hn =>
        have hle := not_lt.mp hn
        linarith

/-- Witness for C2: a concrete under-cap call and a concrete at-cap call. -/
theorem rate_limit_wait_step_spec_witness :
    ((rate_limit_wait 2 120 [10, 70]).sleepTime = 0
      ∧ (rate_limit_wait 2 120 [10, 70]).admitTime = 120)
    ∧ ∃ oldest rest, pruneOld 0 [(0 : ℚ), 0] = oldest :: rest
        ∧ (rate_limit_wait 2 0 [(0 : ℚ), 0]).sleepTime = oldest + 60 - 0
        ∧ (rate_limit_wait 2 0 [(0 : ℚ), 0]).admitTime = oldest + 60 :=
  ⟨(rate_limit_wait_step_spec 2 120 [10, 70] (by norm_num)).2.1
      (by norm_num [pruneOld]),
   (rate_limit_wait_step_spec 2 0 [(0 : ℚ), 0] (by norm_num)).2.2
      (by norm_num [pruneOld])⟩

/-! ## Claim C1: the trailing-window cap -/

/-- C1 (amended): in a sequential run whose call instants are nondecreasing
and in which every admission decision finds strictly fewer than
REQUESTS_PER_MINUTE surviving records (so no call ever waits), every trailing
60-second window holds at most REQUESTS_PER_MINUTE admissions. In general the
claimed bound is false: see the counterexample. -/
theorem rate_window_bound_of_noWait (entries : List ℚ)
    (hsorted : entries.Pairwise (· ≤ ·))
    (hnw : noWaitFrom REQUESTS_PER_MINUTE [] entries = true) (t : ℚ) :
    countWindow (admissionTimes REQUESTS_PER_MINUTE entries) t
      ≤ REQUESTS_PER_MINUTE := by
  rw [admissionTimes, runFrom_eq_of_noWait _ _ _ hnw]
  have hmain := countWindow_runFrom_le REQUESTS_PER_MINUTE entries []
    (by simpa using hsorted) (fun u => by simp [countWindow]) hnw t
  simpa using hmain

/-- Witness for the amended C1 on a small concrete no-wait run. -/
theorem rate_window_bound_of_noWait_witness :
    ([(0 : ℚ), 10].Pairwise (· ≤ ·))
    ∧ noWaitFrom REQUESTS_PER_MINUTE [] [(0 : ℚ), 10] = true
    ∧ countWindow (admissionTimes REQUESTS_PER_MINUTE [(0 : ℚ), 10]) 30
        ≤ REQUESTS_PER_MINUTE :=
  ⟨by norm_num,
   by norm_num [noWaitFrom, pruneOld, REQUESTS_PER_MINUTE],
   rate_window_bound_of_noWait [(0 : ℚ), 10] (by norm_num)
     (by norm_num [noWaitFrom, pruneOld, REQUESTS_PER_MINUTE]) 30⟩

/-- C1 counterexample: a valid sequential run in which a trailing 60-second
window holds more than REQUESTS_PER_MINUTE admissions. 801 calls arrive at
instant 0: the first 800 are admitted at 0, the 801st waits until instant 60
but records its stale pre-wait timestamp 0. From instant 60, 800 further
calls are admitted immediately (the stale zeros are exactly 60 seconds old,
so nothing is pruned and the computed wait is zero), giving 801 admissions
at instant 60. -/
theorem rate_window_cap_exceeded :
    validRun REQUESTS_PER_MINUTE
        (List.replicate 801 (0 : ℚ) ++ List.replicate 800 60) = true
    ∧ REQUESTS_PER_MINUTE <
        countWindow
          (admissionTimes REQUESTS_PER_MINUTE
            (List.replicate 801 (0 : ℚ) ++ List.replicate 800 60)) 60 := by
  have hsplit : List.replicate 801 (0 : ℚ) ++ List.replicate 800 60
      = List.replicate 800 (0 : ℚ) ++ ([0] ++ List.replicate 800 60) := by
    rw [show (801 : Nat) = 800 + 1 from rfl, List.replicate_succ',
      List.append_assoc]
  have hrep801 : List.replicate 801 (0 : ℚ) = List.replicate 800 (0 : ℚ) ++ [0] := by
    rw [show (801 : Nat) = 800 + 1 from rfl, List.replicate_succ']
  have hcons800 : List.replicate 800 (0 : ℚ) = 0 :: List.replicate 799 0 := rfl
  have hpruneW : pruneOld 0 (List.replicate 800 (0 : ℚ)) = List.replicate 800 0 := by
    rw [hcons800]
    exact pruneOld_cons_of_not_lt (by norm_num)
  have hlenW : REQUESTS_PER_MINUTE ≤ (List.replicate 800 (0 : ℚ)).length := by
    rw [List.length_replicate, REQUESTS_PER_MINUTE]
  have hheadW : (List.replicate 800 (0 : ℚ)).headD 0 = 0 := rfl
  have hposW : (0 : ℚ) < 0 - (0 - 60) := by norm_num
  have hstepW : rate_limit_wait REQUESTS_PER_MINUTE 0 (List.replicate 800 (0 : ℚ))
      = ⟨60, 60, List.replicate 801 0⟩ := by
    simp only [rate_limit_wait, hpruneW, if_pos hlenW, hheadW, if_pos hposW,
      ← hrep801]
    norm_num
  have hsixRun : runFrom REQUESTS_PER_MINUTE (List.replicate 801 (0 : ℚ))
      (List.replicate 800 60) = List.replicate 800 60 := by
    have h := (phase_sixties 800 0).1
    rwa [List.replicate_zero, List.append_nil] at h
  have hsixValid : validFrom REQUESTS_PER_MINUTE (List.replicate 801 (0 : ℚ)) 60
      (List.replicate 800 60) = true := by
    have h := (phase_sixties 800 0).2.2.1
    rwa [List.replicate_zero, List.append_nil] at h
  constructor
  · -- validity of the run
    have hv0 : List.replicate 801 (0 : ℚ) ++ List.replicate 800 60
        = 0 :: (List.replicate 799 (0 : ℚ) ++ ([0] ++ List.replicate 800 60)) := by
      rw [hsplit, hcons800, List.cons_append]
    rw [hv0, validRun]
    have hstep0 : rate_limit_wait REQUESTS_PER_MINUTE 0 [] = ⟨0, 0, [0]⟩ := by
      have hn : ¬ REQUESTS_PER_MINUTE ≤ ([] : List ℚ).length := by
        rw [REQUESTS_PER_MINUTE]
        norm_num
      simp only [rate_limit_wait, pruneOld, if_neg hn]
      norm_num
    rw [hstep0]
    rw [validFrom_append]
    have hz := phase_zeros REQUESTS_PER_MINUTE 799 1
      (by rw [REQUESTS_PER_MINUTE])
    have hzv : validFrom REQUESTS_PER_MINUTE [0] 0 (List.replicate 799 (0 : ℚ))
        = true := hz.2.2.1
    have hzf : finalTimes REQUESTS_PER_MINUTE [0] (List.replicate 799 (0 : ℚ))
        = List.replicate 800 0 := hz.2.1
    have hza : finalAdmit REQUESTS_PER_MINUTE [0] 0 (List.replicate 799 (0 : ℚ))
        = 0 := hz.2.2.2
    rw [hzv, hzf, hza, Bool.true_and]
    rw [List.singleton_append, validFrom, hstepW]
    have hd : decide ((0 : ℚ) ≤ 0) = true := by norm_num
    rw [hd, Bool.true_and]
    exact hsixValid
  · -- window count at instant 60
    have ha : admissionTimes REQUESTS_PER_MINUTE
        (List.replicate 801 (0 : ℚ) ++ List.replicate 800 60)
        = List.replicate 800 (0 : ℚ) ++ (60 :: List.replicate 800 60) := by
      rw [admissionTimes, hsplit, runFrom_append]
      have hz := phase_zeros REQUESTS_PER_MINUTE 800 0
        (by rw [REQUESTS_PER_MINUTE])
      have hzr : runFrom REQUESTS_PER_MINUTE [] (List.replicate 800 (0 : ℚ))
          = List.replicate 800 0 := hz.1
      have hzf : finalTimes REQUESTS_PER_MINUTE [] (List.replicate 800 (0 : ℚ))
          = List.replicate 800 0 := hz.2.1
      rw [hzr, hzf, List.singleton_append, runFrom, hstepW, hsixRun]
    rw [ha]
    have hc : countWindow
        (List.replicate 800 (0 : ℚ) ++ (60 :: List.replicate 800 60)) 60 = 801 := by
      rw [countWindow, List.countP_append, List.countP_cons, countP_replicate,
        countP_replicate]
      norm_num
    rw [hc, REQUESTS_PER_MINUTE]
    omega

/-! ## github_request (lines 49-60): the retry loop

The loop body is: rate admission (a rate_limit_wait call), then the network
call gh.getitem(url); on RateLimitExceeded with reset delay d it sleeps d and
restarts the loop; on success it returns; any other error propagates. The
successive results the network would hand back are modelled as a list of
outcomes consumed one per iteration; the loop's observable behaviour is the
event trace it produces.
-/

/-- What one gh.getitem attempt comes back with: a value, the distinguished
RateLimitExceeded error carrying a reset delay, or any other error. -/
inductive Outcome (α ε : Type) where
  | ok (v : α)
  | rateLimited (resetIn : ℚ)
  | otherError (e : ε)

/-- Observable events of the retry loop: a rate-admission step
(a rate_limit_wait call), issuing the request for a url, and sleeping. -/
inductive Event where
  | rateAdmission
  | issue (url : String)
  | sleep (d : ℚ)
  deriving DecidableEq

/-- Result of github_request: the returned value, a propagated non-rate-limit
error, or still looping when the outcome list runs out (the loop itself has
no exit of its own). -/
inductive GHResult (α ε : Type) where
  | success (v : α)
  | failure (e : ε)
  | pending

/-- The while-True loop of github_request: each iteration performs the rate
admission, issues the same url, and then either returns the value, sleeps
for the reset delay and continues, or propagates the error. -/
def github_request (α ε : Type) (url : String) :
    List (Outcome α ε) → List Event × GHResult α ε
  | [] => ([Event.rateAdmission, Event.issue url], GHResult.pending)
  | Outcome.ok v :: _ =>
    ([Event.rateAdmission, Event.issue url], GHResult.success v)
  | Outcome.otherError e :: _ =>
    ([Event.rateAdmission, Event.issue url], GHResult.failure e)
  | Outcome.rateLimited d :: rest =>
    let r := github_request α ε url rest
    (Event.rateAdmission :: Event.issue url :: Event.sleep d :: r.1, r.2)

/-- Every issue event of the loop's trace carries the original url. -/
lemma github_request_issue_url (α ε : Type) (url : String) :
    ∀ (outs : List (Outcome α ε)) (u : String),
      Event.issue u ∈ (github_request α ε url outs).1 → u = url := by
  intro outs
  induction outs with
  | nil =>
    intro u hu
    simp [github_request] at hu
    exact hu
  | cons o rest ih =>
    intro u hu
    cases o with
    | ok v =>
      simp [github_request] at hu
      exact hu
    | otherError e =>
      simp [github_request] at hu
      exact hu
    | rateLimited d =>
      simp only [github_request, List.mem_cons] at hu
      rcases hu with h | h | h | h
      · cases h
      · cases h
        rfl
      · cases h
      · exact ih u h

/-! ## Claim C3: wait-and-retry on RateLimitExceeded -/

/-- C3: when the issuing function fails n times in a row with
RateLimitExceeded carrying reset delay d and then succeeds, github_request
performs n + 1 attempts against the identical url, each attempt preceded by a
rate-admission step, sleeps exactly d (hence at least d) after each failure,
returns the eventual value, and does so for every n — so there is no maximum
retry count — with the sleep fixed at the reset delay, never growing. -/
theorem github_request_retries (α ε : Type) (url : String) (n : Nat) (d : ℚ)
    (v : α) :
    github_request α ε url
        (List.replicate n (Outcome.rateLimited d) ++ [Outcome.ok v])
      = ((List.replicate n
            [Event.rateAdmission, Event.issue url, Event.sleep d]).flatten
          ++ [Event.rateAdmission, Event.issue url],
         GHResult.success v)
    ∧ ∀ u, Event.issue u ∈ (github_request α ε url
          (List.replicate n (Outcome.rateLimited d) ++ [Outcome.ok v])).1
        → u = url := by
  constructor
  · induction n with
    | zero => simp [github_request]
    | succ n ih =>
      rw [List.replicate_succ, List.cons_append, github_request]
      rw [List.replicate_succ, List.flatten_cons]
      simp [ih]
  · exact github_request_issue_url α ε url _

/-! ## Claim C8: non-rate-limit failures pass through -/

/-- C8: a failure of the issuing function that is not RateLimitExceeded is
propagated to the caller unchanged and ends the loop at once: whatever
outcomes would follow are never consumed (no retry), and this holds after any
number of preceding rate-limit retries. -/
theorem github_request_passthrough (α ε : Type) (url : String) (ds : List ℚ)
    (e : ε) (rest : List (Outcome α ε)) :
    github_request α ε url
        (ds.map Outcome.rateLimited ++ Outcome.otherError e :: rest)
      = ((ds.map fun d =>
            [Event.rateAdmission, Event.issue url, Event.sleep d]).flatten
          ++ [Event.rateAdmission, Event.issue url],
         GHResult.failure e)
    ∧ (github_request α ε url (Outcome.otherError e :: rest)).2
        = GHResult.failure e := by
  constructor
  · induction ds with
    | nil => simp [github_request]
    | cons d ds ih =>
      rw [List.map_cons, List.cons_append, github_request]
      rw [List.map_cons, List.flatten_cons]
      simp [ih]
  · rfl

/-! ## Concurrency semaphore (lines 24-28 and 49-60)

The asyncio.Semaphore(MAX_CONCURRENT_REQUESTS) guarding github_request is
modelled as a transition system: acquiring a permit needs one to be
available, and a finishing call — succeeding or failing — always releases
its permit, mirroring the async-with block around the request loop. -/

/-- Semaphore state: available permits and calls currently in flight. -/
structure SemState where
  available : Nat
  inFlight : Nat
  deriving DecidableEq

/-- Transitions of the governor around github_request: acquire one permit
before proceeding (only when one is available), and release it
unconditionally when the call finishes, whether it succeeded or failed. -/
inductive SemStep : SemState → SemState → Prop where
  | acquire (a f : Nat) : SemStep ⟨a + 1, f⟩ ⟨a, f + 1⟩
  | finishSuccess (a f : Nat) : SemStep ⟨a, f + 1⟩ ⟨a + 1, f⟩
  | finishFailure (a f : Nat) : SemStep ⟨a, f + 1⟩ ⟨a + 1, f⟩

/-- States reachable from the initial semaphore with n free permits and
nothing in flight. -/
inductive SemReachable (n : Nat) : SemState → Prop where
  | init : SemReachable n ⟨n, 0⟩
  | step {s s' : SemState} : SemReachable n s → SemStep s s' → SemReachable n s'

lemma semReachable_invariant (n : Nat) :
    ∀ s, SemReachable n s → s.available + s.inFlight = n := by
  intro s h
  induction h with
  | init => rfl
  | step _ hstep ih =>
    cases hstep <;> simp_all <;> omega

/-! ## Claim C4: at most MAX_CONCURRENT_REQUESTS outstanding calls -/

/-- C4: in every reachable state of the governor started with
MAX_CONCURRENT_REQUESTS permits, at most MAX_CONCURRENT_REQUESTS calls are
outstanding; permits are acquired before the call proceeds and the model
releases them unconditionally on both the success and the failure
transition. -/
theorem semaphore_bounds_inflight (s : SemState)
    (h : SemReachable MAX_CONCURRENT_REQUESTS s) :
    s.inFlight ≤ MAX_CONCURRENT_REQUESTS := by
  have hinv := semReachable_invariant MAX_CONCURRENT_REQUESTS s h
  omega

/-- Witness for C4: one acquire step from the initial state. -/
theorem semaphore_bounds_inflight_witness :
    (⟨49, 1⟩ : SemState).inFlight ≤ MAX_CONCURRENT_REQUESTS :=
  semaphore_bounds_inflight ⟨49, 1⟩
    (SemReachable.step SemReachable.init (SemStep.acquire 49 0))

/-! ## Font metadata model (Font dataclass, lines 63-137)

The parsed metadata.json document, with the fields the script reads. The
JSON key named "variable" (a mapping of axis names to definitions; only its
keys are ever used) is rendered here as the list of axis names varAxes,
since variable is a Lean keyword. -/

structure Metadata where
  id : String
  defSubset : String
  family : String
  category : String
  subsets : List String
  styles : List String
  varAxes : List String
  deriving DecidableEq

/-- A font as the script sees it once its two requests resolved: the parsed
metadata document and the directory listing of its files folder, one
(name, size) pair per item, in listing order. -/
structure FontData where
  metadata : Metadata
  files : List (String × Nat)
  deriving DecidableEq

/-- The dict comprehension of _get_filesizes followed by dict.get: iterate
the items in order, a later duplicate name overwriting an earlier one, and
look a name up, returning none when absent. -/
def dictGet (items : List (String × Nat)) (k : String) : Option Nat :=
  items.foldl (fun acc p => if p.1 = k then some p.2 else acc) none

/-- Font._generate_filename (lines 82-89): Python "if not subset" treats both
None and the empty string as absent, falling back to metadata defSubset;
the axis parameter (named variable in the script) defaults to wght and
style to normal at the call sites. -/
def generate_filename (md : Metadata) (subset : Option String)
    (variableAxis : String) (style : String) : String :=
  let s := match subset with
    | none => md.defSubset
    | some str => if str = "" then md.defSubset else str
  md.id ++ "-" ++ s ++ "-" ++ variableAxis ++ "-" ++ style ++ ".woff2"

/-- Font.get_filesize (lines 91-98): derive the filename and look it up in
the files listing; absent names give None rather than an error. -/
def get_filesize (fd : FontData) (subset : Option String)
    (variableAxis : String) (style : String) : Option Nat :=
  dictGet fd.files (generate_filename fd.metadata subset variableAxis style)

/-- Python str.startswith, as a code-point prefix test. -/
def strStartsWith (s p : String) : Bool :=
  p.data.isPrefixOf s.data

/-- Font.get_category (lines 116-121): values starting with "sans-" are
normalized to "sans"; everything else is returned unchanged. -/
def get_category (md : Metadata) : String :=
  if strStartsWith md.category "sans-" then "sans" else md.category

/-- Font.get_url (lines 131-134). -/
def get_url (md : Metadata) : String :=
  "https://fontsource.org/fonts/" ++ md.id

/-- The linked family cell built in process_font (line 167). -/
def linked_family (md : Metadata) : String :=
  "<a href=\"" ++ get_url md ++ "\">" ++ md.family ++ "</a>"

/-- Python truthiness of an int-or-None: None and 0 are falsy. -/
def pyTruthy : Option Nat → Bool
  | none => false
  | some n => n != 0

/-- One table row as assembled by process_font (the five per-family dict
entries of create_font_table). -/
structure Row where
  size : Nat
  category : String
  subsets : List String
  styles : List String
  variableKeys : List String
  deriving DecidableEq

/-- process_font (lines 154-177): the font contributes a row exactly when
"latin" is among its subsets and the requested axis is among its variable
axes and the looked-up file size is truthy (the Python test
"axis in variables and filesize" also rejects a present size of 0). -/
def process_font (fd : FontData) (axis : String) : Option (String × Row) :=
  if fd.metadata.subsets.contains "latin"
      && fd.metadata.varAxes.contains axis
      && pyTruthy (get_filesize fd none axis "normal") then
    some (linked_family fd.metadata,
      { size := (get_filesize fd none axis "normal").getD 0
        category := get_category fd.metadata
        subsets := fd.metadata.subsets
        styles := fd.metadata.styles
        variableKeys := fd.metadata.varAxes })
  else
    none

/-! ## Table assembly (create_font_table, lines 180-237)

The loop over task results inserts each contributed row into the per-family
dicts (Python dict insertion: an existing key keeps its place and gets the
new value, a new key goes to the end); the resulting frame is sorted
ascending by the size column. The sort is modelled with insertionSort, a
correct comparison sort on that key, as pandas sort_values is library code
outside this repository. -/

/-- Python dict insertion order: update in place or append at the end. -/
def dictInsert (k : String) (v : Row) :
    List (String × Row) → List (String × Row)
  | [] => [(k, v)]
  | (k2, v2) :: rest =>
    if k = k2 then (k, v) :: rest else (k2, v2) :: dictInsert k v rest

/-- The result-collection loop of create_font_table: keep each font's
contributed row, keyed by its linked family cell. -/
def collectRows (fonts : List FontData) (axis : String) : List (String × Row) :=
  (fonts.map fun fd => process_font fd axis).foldl
    (fun acc r =>
      match r with
      | some p => dictInsert p.1 p.2 acc
      | none => acc) []

/-- Ordering of table rows by the size column. -/
def rowLE (a b : String × Row) : Prop :=
  a.2.size ≤ b.2.size

instance : DecidableRel rowLE := fun a b =>
  inferInstanceAs (Decidable (a.2.size ≤ b.2.size))

instance : IsTotal (String × Row) rowLE :=
  ⟨fun a b => Nat.le_total a.2.size b.2.size⟩

instance : IsTrans (String × Row) rowLE :=
  ⟨fun _ _ _ hab hbc => Nat.le_trans hab hbc⟩

/-- create_font_table: collect the rows and sort them ascending by size. -/
def create_font_table (fonts : List FontData) (axis : String) :
    List (String × Row) :=
  List.insertionSort rowLE (collectRows fonts axis)

example :
    generate_filename
      ⟨"abc123", "latin", "Abc", "serif", ["latin"], ["normal"], ["wght"]⟩
      none "wght" "normal" = "abc123-latin-wght-normal.woff2" := by
  decide

example : get_category
    ⟨"a", "latin", "A", "sans-serif", [], [], []⟩ = "sans" := by
  decide

/-! ## Claim C9: category normalization -/

/-- C9: get_category rewrites any category value with the fixed "sans-"
prefix to "sans" and leaves every other value unchanged; in particular
"sans-serif" becomes "sans" and "serif" stays "serif". -/
theorem get_category_spec :
    (∀ md : Metadata,
      (strStartsWith md.category "sans-" = true → get_category md = "sans")
      ∧ (strStartsWith md.category "sans-" = false →
          get_category md = md.category))
    ∧ get_category ⟨"a", "latin", "A", "sans-serif", [], [], []⟩ = "sans"
    ∧ get_category ⟨"a", "latin", "A", "serif", [], [], []⟩ = "serif" := by
  refine ⟨fun md => ⟨fun h => ?_, fun h => ?_⟩, by decide, by decide⟩
  · rw [get_category, if_pos h]
  · rw [get_category, if_neg (by rw [h]; exact Bool.false_ne_true)]

/-- Witness for C9, discharging both hypotheses at concrete inputs. -/
theorem get_category_spec_witness :
    get_category ⟨"b", "latin", "B", "sans-mono", [], [], []⟩ = "sans"
    ∧ get_category ⟨"b", "latin", "B", "mono", [], [], []⟩ = "mono" :=
  ⟨(get_category_spec.1 ⟨"b", "latin", "B", "sans-mono", [], [], []⟩).1 (by decide),
   (get_category_spec.1 ⟨"b", "latin", "B", "mono", [], [], []⟩).2 (by decide)⟩

/-! ## Claim C6: filename derivation -/

/-- C6: the filename is id-subset-axis-style.woff2; a missing subset falls
back to the metadata's default subset, and with the default axis wght and
style normal the example identifier abc123 with default subset latin gives
abc123-latin-wght-normal.woff2. The embedding is a plain function of the
metadata and the three parameters, so it is pure and deterministic. -/
theorem generate_filename_spec :
    (∀ md : Metadata,
      generate_filename md none "wght" "normal"
        = md.id ++ "-" ++ md.defSubset ++ "-" ++ "wght" ++ "-" ++ "normal"
            ++ ".woff2")
    ∧ (∀ (md : Metadata) (s axis style : String), s ≠ "" →
        generate_filename md (some s) axis style
          = md.id ++ "-" ++ s ++ "-" ++ axis ++ "-" ++ style ++ ".woff2")
    ∧ generate_filename
        ⟨"abc123", "latin", "Abc", "serif", ["latin"], ["normal"], ["wght"]⟩
        none "wght" "normal" = "abc123-latin-wght-normal.woff2" := by
  refine ⟨fun md => rfl, fun md s axis style hs => ?_, by decide⟩
  simp [generate_filename, hs]

/-- Witness for C6 at a concrete explicitly supplied subset. -/
theorem generate_filename_spec_witness :
    generate_filename
        ⟨"xyz", "latin", "Xyz", "serif", ["latin"], ["normal"], ["wdth"]⟩
        (some "greek") "wdth" "italic"
      = "xyz" ++ "-" ++ "greek" ++ "-" ++ "wdth" ++ "-" ++ "italic"
          ++ ".woff2" :=
  generate_filename_spec.2.1
    ⟨"xyz", "latin", "Xyz", "serif", ["latin"], ["normal"], ["wdth"]⟩
    "greek" "wdth" "italic" (by decide)

/-! ## Claim C5: row inclusion in process_font -/

lemma pyTruthy_iff (fs : Option Nat) :
    pyTruthy fs = true ↔ ∃ n, fs = some n ∧ n ≠ 0 := by
  cases fs with
  | none => simp [pyTruthy]
  | some n => simp [pyTruthy]

lemma process_font_isSome (fd : FontData) (axis : String) :
    (process_font fd axis).isSome
      = (fd.metadata.subsets.contains "latin"
          && fd.metadata.varAxes.contains axis
          && pyTruthy (get_filesize fd none axis "normal")) := by
  rw [process_font]
  split
  · next h => exact Option.isSome_some.trans h.symm
  · next h => exact Option.isSome_none.trans ((Bool.not_eq_true _).mp h).symm

/-- C5 counterexample: the claimed inclusion condition requires only a
non-null file size, but process_font also rejects a present size of 0
(Python truthiness of the int): a latin font carrying the requested wght
axis whose derived file is listed with size 0 is excluded even though its
size is non-null. -/
theorem process_font_nonnull_claim_false :
    ¬ (((process_font
          ⟨⟨"zz", "latin", "Zero", "serif", ["latin"], ["normal"], ["wght"]⟩,
            [("zz-latin-wght-normal.woff2", 0)]⟩ "wght").isSome = true) ↔
        ("latin" ∈ (["latin"] : List String)
          ∧ "wght" ∈ (["wght"] : List String)
          ∧ get_filesize
              ⟨⟨"zz", "latin", "Zero", "serif", ["latin"], ["normal"], ["wght"]⟩,
                [("zz-latin-wght-normal.woff2", 0)]⟩ none "wght" "normal"
              ≠ none)) := by
  decide

/-- C5 (amended): process_font contributes a row exactly when "latin" is
among the subsets, the requested axis is among the declared variable axes,
and the file size resolved for the derived filename is present and nonzero;
a font lacking "latin" is excluded regardless of size. The claim's example
(subsets latin and greek, axis wght among the axes, resolved size 12345) is
included. -/
theorem process_font_inclusion :
    (∀ (fd : FontData) (axis : String),
      (process_font fd axis).isSome = true ↔
        ("latin" ∈ fd.metadata.subsets ∧ axis ∈ fd.metadata.varAxes
          ∧ ∃ n, get_filesize fd none axis "normal" = some n ∧ n ≠ 0))
    ∧ (process_font
        ⟨⟨"ex", "latin", "Example", "sans-serif", ["latin", "greek"],
            ["normal"], ["wght"]⟩,
          [("ex-latin-wght-normal.woff2", 12345)]⟩ "wght").isSome = true := by
  constructor
  · intro fd axis
    rw [process_font_isSome]
    simp [pyTruthy_iff, and_assoc]
  · decide

/-! ## Claim C10: get_filesize on absent and present filenames -/

lemma dictGet_aux_eq_none_iff (k : String) :
    ∀ (items : List (String × Nat)) (acc : Option Nat),
      items.foldl (fun acc p => if p.1 = k then some p.2 else acc) acc = none
        ↔ acc = none ∧ ∀ p ∈ items, p.1 ≠ k := by
  intro items
  induction items with
  | nil => simp
  | cons q items ih =>
    intro acc
    rw [List.foldl_cons, ih]
    by_cases hq : q.1 = k
    · simp [hq]
    · simp [hq, and_assoc]

lemma dictGet_aux_mem (k : String) (v : Nat) :
    ∀ (items : List (String × Nat)) (acc : Option Nat),
      items.foldl (fun acc p => if p.1 = k then some p.2 else acc) acc = some v
        → acc = some v ∨ (k, v) ∈ items := by
  intro items
  induction items with
  | nil => intro acc h; exact Or.inl h
  | cons q items ih =>
    intro acc h
    rw [List.foldl_cons] at h
    rcases ih _ h with h2 | h2
    · by_cases hq : q.1 = k
      · rw [if_pos hq] at h2
        cases h2
        exact Or.inr (by rw [← hq]; exact List.mem_cons_self q items)
      · rw [if_neg hq] at h2
        exact Or.inl h2
    · exact Or.inr (List.mem_cons_of_mem q h2)

/-- C10: get_filesize returns None (rather than failing) whenever the derived
filename is not among the names of the files listing, and when the name is
present it returns a size actually listed for that name. -/
theorem get_filesize_lookup (fd : FontData) (subset : Option String)
    (axis style : String) :
    (generate_filename fd.metadata subset axis style ∉ fd.files.map Prod.fst →
      get_filesize fd subset axis style = none)
    ∧ (generate_filename fd.metadata subset axis style ∈ fd.files.map Prod.fst →
        ∃ n, get_filesize fd subset axis style = some n
          ∧ (generate_filename fd.metadata subset axis style, n) ∈ fd.files) := by
  constructor
  · intro habs
    rw [get_filesize, dictGet, dictGet_aux_eq_none_iff]
    refine ⟨rfl, fun p hp hk => habs ?_⟩
    rw [← hk]
    exact List.mem_map_of_mem Prod.fst hp
  · intro hmem
    have hne : get_filesize fd subset axis style ≠ none := by
      rw [get_filesize, dictGet]
      intro hnone
      rw [dictGet_aux_eq_none_iff] at hnone
      obtain ⟨q, hq, hqk⟩ := List.mem_map.mp hmem
      exact hnone.2 q hq hqk
    obtain ⟨n, hn⟩ := Option.ne_none_iff_exists'.mp hne
    refine ⟨n, hn, ?_⟩
    have := dictGet_aux_mem (generate_filename fd.metadata subset axis style) n
      fd.files none (by rw [← dictGet, ← get_filesize]; exact hn)
    rcases this with h | h
    · cases h
    · exact h

/-- Witness for C10: an absent derived name gives none, a present one gives
its listed size. -/
theorem get_filesize_lookup_witness :
    get_filesize
        ⟨⟨"w", "latin", "W", "serif", ["latin"], ["normal"], ["wght"]⟩,
          [("w-latin-wght-normal.woff2", 7)]⟩ none "wght" "italic" = none
    ∧ ∃ n, get_filesize
        ⟨⟨"w", "latin", "W", "serif", ["latin"], ["normal"], ["wght"]⟩,
          [("w-latin-wght-normal.woff2", 7)]⟩ none "wght" "normal" = some n
        ∧ (generate_filename
            ⟨"w", "latin", "W", "serif", ["latin"], ["normal"], ["wght"]⟩
            none "wght" "normal", n)
          ∈ [("w-latin-wght-normal.woff2", 7)] :=
  ⟨(get_filesize_lookup
      ⟨⟨"w", "latin", "W", "serif", ["latin"], ["normal"], ["wght"]⟩,
        [("w-latin-wght-normal.woff2", 7)]⟩ none "wght" "italic").1 (by decide),
   (get_filesize_lookup
      ⟨⟨"w", "latin", "W", "serif", ["latin"], ["normal"], ["wght"]⟩,
        [("w-latin-wght-normal.woff2", 7)]⟩ none "wght" "normal").2 (by decide)⟩

/-! ## Claim C7: table ordering and absence of filtered fonts -/

lemma mem_dictInsert {q : String × Row} {k : String} {v : Row} :
    ∀ {l : List (String × Row)}, q ∈ dictInsert k v l → q = (k, v) ∨ q ∈ l := by
  intro l
  induction l with
  | nil => intro h; simpa [dictInsert] using h
  | cons p rest ih =>
    intro h
    rw [dictInsert] at h
    split at h
    · rcases List.mem_cons.mp h with h2 | h2
      · exact Or.inl h2
      · exact Or.inr (List.mem_cons_of_mem p h2)
    · rcases List.mem_cons.mp h with h2 | h2
      · exact Or.inr (h2 ▸ List.mem_cons_self p rest)
      · rcases ih h2 with h3 | h3
        · exact Or.inl h3
        · exact Or.inr (List.mem_cons_of_mem p h3)

lemma mem_rowFold {q : String × Row} :
    ∀ (rs : List (Option (String × Row))) (acc : List (String × Row)),
      q ∈ rs.foldl
          (fun acc r =>
            match r with
            | some p => dictInsert p.1 p.2 acc
            | none => acc) acc
      → q ∈ acc ∨ some q ∈ rs := by
  intro rs
  induction rs with
  | nil => intro acc h; exact Or.inl h
  | cons o rest ih =>
    intro acc h
    rw [List.foldl_cons] at h
    cases o with
    | none =>
      rcases ih _ h with h2 | h2
      · exact Or.inl h2
      · exact Or.inr (List.mem_cons_of_mem _ h2)
    | some p =>
      rcases ih _ h with h2 | h2
      · rcases mem_dictInsert h2 with h3 | h3
        · exact Or.inr (by rw [h3]; exact List.mem_cons_self _ _)
        · exact Or.inl h3
      · exact Or.inr (List.mem_cons_of_mem _ h2)

/-- Every entry of the collected rows was contributed by some font. -/
lemma mem_collectRows {q : String × Row} {fonts : List FontData}
    {axis : String} (h : q ∈ collectRows fonts axis) :
    ∃ fd ∈ fonts, process_font fd axis = some q := by
  rcases mem_rowFold _ [] h with h2 | h2
  · cases h2
  · obtain ⟨o, ho, hoq⟩ := List.mem_map.mp h2
    exact ⟨o, ho, hoq⟩

/-- A contributed row is always keyed by the font's linked family cell. -/
lemma process_font_key {fd : FontData} {axis : String} {k : String} {r : Row}
    (h : process_font fd axis = some (k, r)) :
    k = linked_family fd.metadata := by
  rw [process_font] at h
  split at h
  · cases h; rfl
  · cases h

/-- A font whose subsets lack "latin" or whose axes lack the requested axis
contributes nothing. -/
lemma process_font_eq_none {fd : FontData} {axis : String}
    (h : "latin" ∉ fd.metadata.subsets ∨ axis ∉ fd.metadata.varAxes) :
    process_font fd axis = none := by
  have hc : ¬ (fd.metadata.subsets.contains "latin"
      && fd.metadata.varAxes.contains axis
      && pyTruthy (get_filesize fd none axis "normal")) = true := by
    rw [Bool.and_eq_true, Bool.and_eq_true]
    rintro ⟨⟨h1, h2⟩, -⟩
    rcases h with h3 | h3
    · exact h3 (List.elem_iff.mp h1)
    · exact h3 (List.elem_iff.mp h2)
  rw [process_font, if_neg hc]

/-- C7 (amended): for every font list the generated table is ordered
nondecreasing in the resolved size; it is strictly ascending whenever the
collected sizes are pairwise distinct (with equal sizes only the
nondecreasing order holds, see the counterexample); and a font missing the
requested axis or the latin subset does not appear in the table, provided no
other listed font carries the same linked family cell. -/
theorem create_font_table_spec (fonts : List FontData) (axis : String) :
    List.Pairwise (fun a b => a.2.size ≤ b.2.size) (create_font_table fonts axis)
    ∧ (List.Pairwise (fun a b => a.2.size ≠ b.2.size) (collectRows fonts axis) →
        List.Pairwise (fun a b => a.2.size < b.2.size)
          (create_font_table fonts axis))
    ∧ (∀ fd ∈ fonts,
        ("latin" ∉ fd.metadata.subsets ∨ axis ∉ fd.metadata.varAxes) →
        (∀ g ∈ fonts,
          linked_family g.metadata = linked_family fd.metadata → g = fd) →
        linked_family fd.metadata ∉ (create_font_table fonts axis).map Prod.fst) := by
  refine ⟨List.sorted_insertionSort rowLE (collectRows fonts axis), ?_, ?_⟩
  · intro hdist
    have hperm := List.perm_insertionSort rowLE (collectRows fonts axis)
    have hne : List.Pairwise (fun a b : String × Row => a.2.size ≠ b.2.size)
        (create_font_table fonts axis) :=
      (hperm.pairwise_iff fun h => Ne.symm h).mpr hdist
    have hle := List.sorted_insertionSort rowLE (collectRows fonts axis)
    exact (hle.and hne).imp fun hab => Nat.lt_of_le_of_ne hab.1 hab.2
  · intro fd hfd hmiss huniq hmem
    obtain ⟨q, hq, hqk⟩ := List.mem_map.mp hmem
    have hqc : q ∈ collectRows fonts axis :=
      (List.perm_insertionSort rowLE (collectRows fonts axis)).subset hq
    obtain ⟨g, hg, hgq⟩ := mem_collectRows hqc
    have hkey : q.1 = linked_family g.metadata := by
      obtain ⟨k, r⟩ := q
      exact process_font_key hgq
    have hgfd : g = fd := huniq g hg (by rw [← hkey, hqk])
    rw [hgfd, process_font_eq_none hmiss] at hgq
    cases hgq

/-- Witness for C7 on two concrete fonts with distinct sizes: a strictly
ascending table and the absence of a font lacking the latin subset. -/
theorem create_font_table_spec_witness :
    List.Pairwise (fun a b => a.2.size < b.2.size)
      (create_font_table
        [⟨⟨"aa", "latin", "Aa", "serif", ["latin"], ["normal"], ["wght"]⟩,
            [("aa-latin-wght-normal.woff2", 200)]⟩,
         ⟨⟨"bb", "latin", "Bb", "serif", ["latin"], ["normal"], ["wght"]⟩,
            [("bb-latin-wght-normal.woff2", 100)]⟩,
         ⟨⟨"cc", "latin", "Cc", "serif", ["greek"], ["normal"], ["wght"]⟩,
            [("cc-latin-wght-normal.woff2", 50)]⟩] "wght")
    ∧ linked_family ⟨"cc", "latin", "Cc", "serif", ["greek"], ["normal"], ["wght"]⟩
        ∉ (create_font_table
            [⟨⟨"aa", "latin", "Aa", "serif", ["latin"], ["normal"], ["wght"]⟩,
                [("aa-latin-wght-normal.woff2", 200)]⟩,
             ⟨⟨"bb", "latin", "Bb", "serif", ["latin"], ["normal"], ["wght"]⟩,
                [("bb-latin-wght-normal.woff2", 100)]⟩,
             ⟨⟨"cc", "latin", "Cc", "serif", ["greek"], ["normal"], ["wght"]⟩,
                [("cc-latin-wght-normal.woff2", 50)]⟩] "wght").map Prod.fst :=
  ⟨(create_font_table_spec
      [⟨⟨"aa", "latin", "Aa", "serif", ["latin"], ["normal"], ["wght"]⟩,
          [("aa-latin-wght-normal.woff2", 200)]⟩,
       ⟨⟨"bb", "latin", "Bb", "serif", ["latin"], ["normal"], ["wght"]⟩,
          [("bb-latin-wght-normal.woff2", 100)]⟩,
       ⟨⟨"cc", "latin", "Cc", "serif", ["greek"], ["normal"], ["wght"]⟩,
          [("cc-latin-wght-normal.woff2", 50)]⟩] "wght").2.1 (by decide),
   (create_font_table_spec
      [⟨⟨"aa", "latin", "Aa", "serif", ["latin"], ["normal"], ["wght"]⟩,
          [("aa-latin-wght-normal.woff2", 200)]⟩,
       ⟨⟨"bb", "latin", "Bb", "serif", ["latin"], ["normal"], ["wght"]⟩,
          [("bb-latin-wght-normal.woff2", 100)]⟩,
       ⟨⟨"cc", "latin", "Cc", "serif", ["greek"], ["normal"], ["wght"]⟩,
          [("cc-latin-wght-normal.woff2", 50)]⟩] "wght").2.2
      ⟨⟨"cc", "latin", "Cc", "serif", ["greek"], ["normal"], ["wght"]⟩,
        [("cc-latin-wght-normal.woff2", 50)]⟩
      (by decide) (by decide) (by decide)⟩

/-- C7 counterexample: two latin wght fonts whose resolved sizes are both
100 yield a table that is not strictly ascending, so the claim's strict
ordering fails for this input set. -/
theorem create_font_table_not_strict :
    ¬ List.Pairwise (fun a b => a.2.size < b.2.size)
        (create_font_table
          [⟨⟨"aa", "latin", "Aa", "serif", ["latin"], ["normal"], ["wght"]⟩,
              [("aa-latin-wght-normal.woff2", 100)]⟩,
           ⟨⟨"bb", "latin", "Bb", "serif", ["latin"], ["normal"], ["wght"]⟩,
              [("bb-latin-wght-normal.woff2", 100)]⟩] "wght") := by
  decide

end FontByte
